import Mathlib

/-!
# Verification of the derenotes frame-indexed video decoding engine

Shallow embedding of `src/derenotes/libs/image/video.pyx`: the hardware
pixel-format selection callback, the packet decode pipeline, the Timetable
construction and its observers (`timestamp`, `total_frames`), the
`frame_buffer` / `nearby_keyframe_buffer` retrieval operations, and the
plane export (trim + vertical flip) performed with numpy in `frame_buffer`.

The FFmpeg collaborator surface (container, decoder, swscale, hardware
transfer) is modelled as oracle fields of `StreamModel`; the engine logic
itself is translated statement by statement from the Cython source.
Machine-integer behaviour of the source is modelled explicitly: the
`<int>` C casts in `timestamp` / `total_frames` truncate to 32-bit
(`wrap32`), and the `cdef int frame_index = index` conversions raise
Python `OverflowError` outside the 32-bit range.
-/

/-- FFmpeg constants used by the source (values from the FFmpeg headers). -/
def EAGAIN : Int := 11

/-- `AVERROR(e) = -e` (FFmpeg error code encoding). -/
def AVERROR (e : Int) : Int := -e

/-- `AVERROR_EOF = FFERRTAG('E','O','F',' ')`. -/
def AVERROR_EOF : Int := -541478725

/-- `AV_PIX_FMT_NONE` sentinel value. -/
def AV_PIX_FMT_NONE : Int := -1

/-- `AV_PKT_FLAG_KEY` packet flag bit. -/
def AV_PKT_FLAG_KEY : Nat := 1

/-- The error conditions of the module.  The source raises a single Python
class `VIDEOError` with a distinct message per raise site; the spec names
each site, and we model the sites as distinct constructors.  `pyOverflow`
models the Python `OverflowError` raised by Cython when converting a Python
int to a C `int` outside the 32-bit range (`cdef int frame_index = index`),
which is a different exception class from `VIDEOError`. -/
inductive VErr where
  | openError
  | streamInfoError
  | noVideoStreamError
  | decoderInitError
  | hardwareInitError
  | hardwareTransferError
  | seekError
  | decodeError
  | indexOutOfRange
  | pyOverflow
deriving Repr, DecidableEq

/-- Truncation of an integer to a signed 32-bit value: the semantics of the
C casts `<int>self.timetable[frame_index].pts` and
`<int>self.stream.nb_frames` in the source. -/
def wrap32 (n : Int) : Int := (n + 2 ^ 31) % 2 ^ 32 - 2 ^ 31

/-- A decoded frame as seen by the engine: `AVFrame` fields that the
source reads (`pts`, `width`, `linesize[0]`) together with the byte
contents of plane 0 (`av_frame_get_plane_buffer(frame, 0)`, of length
`linesize[0] * height` as exported by `_Plane.__getbuffer__`). -/
structure FrameData where
  pts : Int
  width : Nat
  height : Nat
  linesize : Nat
  plane : List Nat
deriving Repr, DecidableEq

/-- `_get_hw_format(ctx, fmts)`: scan the sentinel-terminated candidate
list; return the first candidate equal to `AV_PIX_FMT_NONE`, to the
hardware-surface pixel format of the active device (`hwFmt`), or to the
decoder's default software format (`ctx.sw_pix_fmt`, here `swFmt`).
The end of the Lean list models the `AV_PIX_FMT_NONE` terminator of the C
array, at which the source returns the sentinel itself. -/
def get_hw_format (hwFmt swFmt : Int) : List Int → Int
  | [] => AV_PIX_FMT_NONE
  | f :: rest =>
    if f = AV_PIX_FMT_NONE ∨ f = hwFmt then f
    else if f = swFmt then f
    else get_hw_format hwFmt swFmt rest

/-- `_Packet.receive_frame`: one `avcodec_receive_frame` call with result
code `res` producing frame `f` on success; `AVERROR_EOF` / `AVERROR(EAGAIN)`
yield no frame (Python `None`), any other non-zero code raises. -/
def receive_frame (res : Int) (f : FrameData) : Except VErr (Option FrameData) :=
  if res = 0 then .ok (some f)
  else if res = AVERROR_EOF ∨ res = AVERROR EAGAIN then .ok none
  else .error .decodeError

/-- The `while True` pull loop of `_Packet.decode`: successive
`avcodec_receive_frame` results (code, frame) are consumed until a call
yields no frame (stop, keeping the frames so far) or raises. -/
def decodeLoop : List (Int × FrameData) → Except VErr (List FrameData)
  | [] => .ok []
  | (r, f) :: rest =>
    match receive_frame r f with
    | .ok (some fr) =>
      match decodeLoop rest with
      | .ok fs => .ok (fr :: fs)
      | .error e => .error e
    | .ok none => .ok []
    | .error e => .error e

/-- `_Packet.decode`: if `avcodec_send_packet` returns non-zero the loop is
never entered and the empty frame list is returned; otherwise the frames
are pulled. `recvs` is the trace of `avcodec_receive_frame` outcomes the
decoder would produce for this packet. -/
def decode (sendRes : Int) (recvs : List (Int × FrameData)) : Except VErr (List FrameData) :=
  if sendRes = 0 then decodeLoop recvs else .ok []

/-- Fuel-driven worker for `chunkList`: peel `n` elements per step.
Models a numpy `reshape((-1, n))` of a flat buffer; the divisibility side
conditions under which numpy would accept the reshape appear as
hypotheses of the theorems that use it. -/
def chunkGo (n : Nat) : Nat → List α → List (List α)
  | _, [] => []
  | 0, _ :: _ => []
  | Nat.succ fuel, x :: xs =>
    if n = 0 then [] else (x :: xs).take n :: chunkGo n fuel ((x :: xs).drop n)

/-- Split a list into consecutive chunks of `n` elements (the last chunk
may be shorter); the fuel argument of `chunkGo` only bounds the recursion
depth. -/
def chunkList (n : Nat) (l : List α) : List (List α) := chunkGo n l.length l

/-- One entry of the Timetable: the `("pts", "dts", "flags")` record the
scan in `Stream.__init__` stores per packet (`flags` is `1` when the
packet carried `AV_PKT_FLAG_KEY`, else `0`). -/
structure TimetableEntry where
  pts : Int
  dts : Int
  flags : Int
deriving Repr, DecidableEq, Inhabited

/-- Lexicographic comparison on `(pts, dts, flags)`: the order used by
`np.sort(timetable, order="pts")`, which compares the named field first
and the remaining fields in dtype order afterwards. -/
def tleLe (a b : TimetableEntry) : Bool :=
  if a.pts < b.pts then true
  else if b.pts < a.pts then false
  else if a.dts < b.dts then true
  else if b.dts < a.dts then false
  else decide (a.flags ≤ b.flags)

/-- Sorted insertion of a timetable entry. -/
def insertTT (a : TimetableEntry) : List TimetableEntry → List TimetableEntry
  | [] => [a]
  | b :: l => if tleLe a b then a :: b :: l else b :: insertTT a l

/-- `np.sort(timetable, order="pts")`: modelled as an insertion sort by
the lexicographic `(pts, dts, flags)` key.  Since the key compares every
field, entries with equal keys are equal, so the sorted sequence is the
unique key-ordered permutation and any correct sort realizes it. -/
def sortTimetable : List TimetableEntry → List TimetableEntry
  | [] => []
  | a :: l => insertTT a (sortTimetable l)

/-- Entries ordered by presentation timestamp. -/
def ptsLe (a b : TimetableEntry) : Prop := a.pts ≤ b.pts

/-- One compressed packet as seen by the Timetable scan: the `AVPacket`
fields the scan reads (`stream_index`, `pts`, `dts`, `flags`). -/
structure PacketData where
  streamIndex : Int
  pts : Int
  dts : Int
  flags : Nat
deriving Repr, DecidableEq

/-- The entries recorded by the single forward pass of `Stream.__init__`:
one per packet of the selected substream (`_iter_packet` skips packets
whose `stream_index` differs from `best_stream_index`), in read order;
`flags` is `1` when the packet carried `AV_PKT_FLAG_KEY`, else `0`. -/
def recordedEntries (pkts : List PacketData) (best : Int) : List TimetableEntry :=
  (pkts.filter (fun p => p.streamIndex == best)).map
    (fun p => ⟨p.pts, p.dts, if p.flags &&& AV_PKT_FLAG_KEY ≠ 0 then 1 else 0⟩)

/-- `Stream.__init__`: a `np.ndarray` of `nb_frames` entries is allocated,
the first `recorded.length` are filled by the forward pass, and the tail
(`garbage`) keeps whatever the uninitialized allocation held.  Writing
past the allocated array (more packets than `nb_frames`) raises a numpy
`IndexError`, so open fails (`none`).  Finally the whole array is sorted
by `pts` (`np.sort(timetable, order="pts")`). -/
def openTimetable (nbFrames : Nat) (pkts : List PacketData) (best : Int)
    (garbage : List TimetableEntry) : Option (List TimetableEntry) :=
  if (recordedEntries pkts best).length ≤ nbFrames ∧
      garbage.length = nbFrames - (recordedEntries pkts best).length then
    some (sortTimetable (recordedEntries pkts best ++ garbage))
  else none

/-- The opened Stream session: engine state plus the FFmpeg collaborator
surface, the latter modelled as oracle fields.

* `nbFrames` — `self.stream.nb_frames` (container metadata);
* `width`, `height` — `decodec_context.width` / `.height`;
* `enabledHardware` — `self._enabled_hardware`;
* `timetable` — `self.timetable` after `__init__`; the allocation gives it
  exactly `nb_frames` entries (`timetable_len`);
* `seekOk t` — whether `av_seek_frame(..., t, AVSEEK_FLAG_BACKWARD)` succeeds;
* `seekPos t` — the container read position right after that seek;
* `cursorAfter t` — the read position after the decode pass for target `t`;
* `framesFrom t` — the decoded frames `_iter_frame()` yields, in order,
  after seeking to `t`;
* `hwTransfer f` — `av_hwframe_transfer_data` (`none` = failure);
* `rgb24 f` — `_Swscale.rgb24`, conversion of `f` to pixel format rgb24. -/
structure StreamModel where
  nbFrames : Nat
  width : Nat
  height : Nat
  enabledHardware : Bool
  timetable : List TimetableEntry
  timetable_len : timetable.length = nbFrames
  seekOk : Int → Bool
  seekPos : Int → Int
  cursorAfter : Int → Int
  framesFrom : Int → List FrameData
  hwTransfer : FrameData → Option FrameData
  rgb24 : FrameData → FrameData

/-- Mutable session state shared by every call: the container read
position and whether the decoder was left drained (`_drain_codec`). -/
structure SessionState where
  readPos : Int
  drained : Bool
deriving Repr, DecidableEq

/-- `Stream.total_frames`: `<int>self.stream.nb_frames` (32-bit cast). -/
def total_frames (m : StreamModel) : Int := wrap32 m.nbFrames

/-- `Stream.timestamp(index)`: `cdef int frame_index = index` (Python
`OverflowError` outside the 32-bit range), the bounds check against
`nb_frames`, then `<int>self.timetable[frame_index].pts` (32-bit
truncating cast). -/
def timestamp (m : StreamModel) (index : Int) : Except VErr Int :=
  if index < -(2 ^ 31) ∨ 2 ^ 31 ≤ index then .error .pyOverflow
  else if h : index < 0 ∨ (m.nbFrames : Int) ≤ index then .error .indexOutOfRange
  else
    have hlt : index.toNat < m.timetable.length := by
      rw [m.timetable_len]
      omega
    .ok (wrap32 (m.timetable.get ⟨index.toNat, hlt⟩).pts)

/-- `Stream._black_frame_buffer`: `np.zeros(width * height * 3, np.uint8)`. -/
def blackFrameBuffer (m : StreamModel) : List Nat :=
  List.replicate (m.width * m.height * 3) 0

/-- The numpy export of the found frame in `Stream.frame_buffer`:
`np.frombuffer(_Plane(frame, 0), dtype=[R,G,B])` groups the plane bytes
into 3-byte pixels; `reshape((-1, linesize[0] // 3))` groups the pixels
into rows; `[:, 0:width]` trims the row-alignment padding; `np.flipud`
reverses the row order; the final `reshape(-1).view(np.uint8).tobytes()`
flattens back to bytes. -/
def exportPlane (f : FrameData) : List Nat :=
  (((chunkList (f.linesize / 3) (chunkList 3 f.plane)).map
      (fun r => r.take f.width)).reverse).flatten.flatten

/-- The body of `Stream.frame_buffer(index)` after index validation,
with `target` the presentation timestamp of the requested frame,
together with its effect on the session state.  Translated from the
source: `_seek_keyframe(target)` (raises on seek
failure, otherwise moves the read position and drains the decoder); the
`_iter_frame()` loop keeping the first frame whose `pts` equals the
target (the loop leaves the read position at `cursorAfter`; breaking out
early abandons the generator before its drain); the hardware-transfer
branch; conversion to rgb24 and the numpy export; and the black-frame
fallback when the iterator is exhausted without a match. -/
def frameBufferCore (m : StreamModel) (s : SessionState) (target : Int) :
    Except VErr (List Nat) × SessionState :=
  if m.seekOk target then
    match (m.framesFrom target).find? (fun f => f.pts == target) with
    | some f =>
      if m.enabledHardware then
        match m.hwTransfer f with
        | some fsw =>
          (.ok (exportPlane (m.rgb24 fsw)), ⟨m.cursorAfter target, false⟩)
        | none => (.error .hardwareTransferError, ⟨m.cursorAfter target, false⟩)
      else (.ok (exportPlane (m.rgb24 f)), ⟨m.cursorAfter target, false⟩)
    | none => (.ok (blackFrameBuffer m), ⟨m.cursorAfter target, true⟩)
  else (.error .seekError, s)

/-- Index validation of `Stream.frame_buffer`: the `cdef int` conversion,
the bounds check, then the seek-and-decode body at the indexed entry's
presentation timestamp. -/
def frameBufferOp (m : StreamModel) (s : SessionState) (index : Int) :
    Except VErr (List Nat) × SessionState :=
  if index < -(2 ^ 31) ∨ 2 ^ 31 ≤ index then (.error .pyOverflow, s)
  else if h : index < 0 ∨ (m.nbFrames : Int) ≤ index then (.error .indexOutOfRange, s)
  else
    have hlt : index.toNat < m.timetable.length := by
      rw [m.timetable_len]
      omega
    frameBufferCore m s ((m.timetable.get ⟨index.toNat, hlt⟩).pts)

/-- The return value of `Stream.frame_buffer(index)` (the value does not
depend on the session state; the state effect is in `frameBufferOp`). -/
def frame_buffer (m : StreamModel) (index : Int) : Except VErr (List Nat) :=
  (frameBufferOp m ⟨0, true⟩ index).1

/-- `np.flatnonzero(list(map(lambda e: e["flags"], self.timetable)))`:
the indices (into the sorted timetable) whose entry has a nonzero
keyframe flag. -/
def keyframeIndices (m : StreamModel) : List Nat :=
  (List.range m.timetable.length).filter
    (fun i => (m.timetable.getD i default).flags != 0)

/-- `np.extract(keyframes > index, keyframes)`. -/
def forwardKeyframes (m : StreamModel) (index : Int) : List Nat :=
  (keyframeIndices m).filter (fun k => decide (index < (k : Int)))

/-- `np.extract(keyframes <= index, keyframes)`. -/
def backwardKeyframes (m : StreamModel) (index : Int) : List Nat :=
  (keyframeIndices m).filter (fun k => decide ((k : Int) ≤ index))

/-- `Stream.nearby_keyframe_buffer(index, nearby_keyframe)`: the keyframe
indices are split around `index` (strictly greater = forward, less than
or equal = backward); a negative offset indexes `backward_keyframes` from
its end (Python negative indexing), a positive offset `n` picks entry
`n - 1` of `forward_keyframes`, offset `0` is `frame_buffer(index)`
itself, and any other offset falls back to the black frame. -/
def nearby_keyframe_buffer (m : StreamModel) (index nearby : Int) :
    Except VErr (List Nat) :=
  if nearby < 0 ∧ nearby.natAbs ≤ (backwardKeyframes m index).length then
    frame_buffer m
      (((backwardKeyframes m index).getD
        ((backwardKeyframes m index).length - nearby.natAbs) 0 : Nat) : Int)
  else if 0 < nearby ∧ nearby ≤ ((forwardKeyframes m index).length : Int) then
    frame_buffer m (((forwardKeyframes m index).getD (nearby.toNat - 1) 0 : Nat) : Int)
  else if nearby = 0 then frame_buffer m index
  else .ok (blackFrameBuffer m)

/-- `Stream.timestamp` as a state-passing operation: its body reads
`self.stream.nb_frames` and `self.timetable` and performs no mutating
call, so the session state passes through unchanged. -/
def timestampOp (m : StreamModel) (s : SessionState) (index : Int) :
    Except VErr Int × SessionState :=
  (timestamp m index, s)

/-- `Stream.total_frames` as a state-passing operation (a pure read of
`self.stream.nb_frames`). -/
def totalFramesOp (m : StreamModel) (s : SessionState) : Int × SessionState :=
  (total_frames m, s)

/-- Collaborator contract of the rgb24 conversion (spec 4.6 / 4.7): the
output frame keeps the stream's width, its plane 0 holds
`linesize * height` bytes, rows are whole 3-byte pixels, and each row
carries at least `width` pixels of payload. -/
def wellformedRGB (m : StreamModel) (f : FrameData) : Prop :=
  f.width = m.width ∧ 0 < f.linesize ∧ 3 ∣ f.linesize ∧
    3 * f.width ≤ f.linesize ∧ f.plane.length = f.linesize * m.height

/-- Modelled from the spec (§4.1 step 4): the exported buffer described
as the plane's byte rows (stride `linesize`) in flipped, top-to-bottom
order, each trimmed to its first `width` pixels (`3 * width` bytes). -/
def specExport (f : FrameData) : List Nat :=
  (((chunkList f.linesize f.plane).map (fun r => r.take (3 * f.width))).reverse).flatten

/-- A session whose decode pass always finds the target frame: software
decode, width 1, height 2, two timetable entries, and a conversion oracle
returning a wellformed rgb24 frame (linesize 3, six plane bytes). -/
def Mfound : StreamModel where
  nbFrames := 2
  width := 1
  height := 2
  enabledHardware := false
  timetable := [⟨0, 0, 1⟩, ⟨5, 5, 0⟩]
  timetable_len := rfl
  seekOk := fun _ => true
  seekPos := fun _ => 0
  cursorAfter := fun _ => 0
  framesFrom := fun t => [⟨t, 1, 2, 3, [1, 2, 3, 4, 5, 6]⟩]
  hwTransfer := fun f => some f
  rgb24 := fun _ => ⟨0, 1, 2, 3, [10, 20, 30, 40, 50, 60]⟩

/-- A session whose decode pass yields no frames (every lookup falls back
to the black frame); both timetable entries are keyframes. -/
def Mmiss : StreamModel where
  nbFrames := 2
  width := 1
  height := 2
  enabledHardware := false
  timetable := [⟨0, 0, 1⟩, ⟨5, 5, 1⟩]
  timetable_len := rfl
  seekOk := fun _ => true
  seekPos := fun _ => 0
  cursorAfter := fun _ => 0
  framesFrom := fun _ => []
  hwTransfer := fun f => some f
  rgb24 := fun _ => ⟨0, 1, 2, 3, [10, 20, 30, 40, 50, 60]⟩

/-- A one-frame session (used to probe the bounds checks). -/
def M1 : StreamModel where
  nbFrames := 1
  width := 1
  height := 1
  enabledHardware := false
  timetable := [⟨0, 0, 1⟩]
  timetable_len := rfl
  seekOk := fun _ => true
  seekPos := fun _ => 0
  cursorAfter := fun _ => 0
  framesFrom := fun _ => []
  hwTransfer := fun f => some f
  rgb24 := fun f => f

/-- The packets of the selected substream for the session `M2`: two
keyframe packets, one with a presentation timestamp of `2 ^ 31`. -/
def pktsM2 : List PacketData := [⟨0, 2 ^ 31, 2, 1⟩, ⟨0, 0, 1, 1⟩]

/-- A session opened on `pktsM2`: its timetable is exactly what
`openTimetable 2 pktsM2 0 []` produces (sorted ascending by `pts`), with
the second entry's `pts` equal to `2 ^ 31`. -/
def M2 : StreamModel where
  nbFrames := 2
  width := 1
  height := 1
  enabledHardware := false
  timetable := [⟨0, 1, 1⟩, ⟨2 ^ 31, 2, 1⟩]
  timetable_len := rfl
  seekOk := fun _ => true
  seekPos := fun _ => 0
  cursorAfter := fun _ => 0
  framesFrom := fun _ => []
  hwTransfer := fun f => some f
  rgb24 := fun f => f

/-- The packets of the selected substream for the session `M3`: a single
keyframe packet, although the container metadata declares two frames. -/
def pktsM3 : List PacketData := [⟨0, 7, 7, 1⟩]

/-- A session opened on `pktsM3` with `nb_frames = 2`: the scan records
one entry and the second timetable slot keeps its uninitialized content
`⟨9, 9, 0⟩`; `openTimetable 2 pktsM3 0 [⟨9, 9, 0⟩]` produces exactly this
timetable. -/
def M3 : StreamModel where
  nbFrames := 2
  width := 1
  height := 1
  enabledHardware := false
  timetable := [⟨7, 7, 1⟩, ⟨9, 9, 0⟩]
  timetable_len := rfl
  seekOk := fun _ => true
  seekPos := fun _ => 0
  cursorAfter := fun _ => 0
  framesFrom := fun _ => []
  hwTransfer := fun f => some f
  rgb24 := fun f => f

/-- Decidable equality for `Except`, so the concrete sessions above can
be evaluated by `decide`. -/
instance instDecEqExcept {e a : Type} [DecidableEq e] [DecidableEq a] :
    DecidableEq (Except e a)
  | .error x, .error y =>
    if h : x = y then isTrue (by rw [h]) else isFalse (fun hc => h (Except.error.inj hc))
  | .error _, .ok _ => isFalse (fun hc => Except.noConfusion hc)
  | .ok _, .error _ => isFalse (fun hc => Except.noConfusion hc)
  | .ok x, .ok y =>
    if h : x = y then isTrue (by rw [h]) else isFalse (fun hc => h (Except.ok.inj hc))

/-- A trivial decoded frame (used to exercise the decode pipeline). -/
def frZero : FrameData := ⟨0, 0, 0, 0, []⟩

/-- A concrete rgb24 frame: width 1, two rows of stride 6 (one payload
pixel plus one padding pixel per row). -/
def fEx : FrameData := ⟨0, 1, 2, 6, [1, 2, 3, 4, 5, 6, 7, 8, 9, 10, 11, 12]⟩

theorem chunkGo_nil (n fuel : Nat) : chunkGo n fuel ([] : List α) = [] := by
  cases fuel <;> rfl

theorem chunkGo_fuel_eq (n : Nat) (hn : n ≠ 0) :
    ∀ (f₁ f₂ : Nat) (l : List α), l.length ≤ f₁ → l.length ≤ f₂ →
      chunkGo n f₁ l = chunkGo n f₂ l := by
  intro f₁
  induction f₁ with
  | zero =>
    intro f₂ l h₁ h₂
    have : l = [] := List.length_eq_zero.mp (Nat.le_zero.mp h₁)
    rw [this, chunkGo_nil, chunkGo_nil]
  | succ k ih =>
    intro f₂ l h₁ h₂
    match l, f₂ with
    | [], _ => rw [chunkGo_nil, chunkGo_nil]
    | x :: xs, 0 => simp at h₂
    | x :: xs, Nat.succ f₂ =>
      show (if n = 0 then [] else _) = (if n = 0 then [] else _)
      simp only [hn, if_false]
      congr 1
      apply ih
      · simp only [List.length_drop, List.length_cons] at h₁ ⊢
        omega
      · simp only [List.length_drop, List.length_cons] at h₂ ⊢
        omega

theorem chunkList_nil (n : Nat) : chunkList n ([] : List α) = [] := rfl

theorem chunkList_zero (l : List α) : chunkList 0 l = [] := by
  cases l <;> simp [chunkList, chunkGo]

theorem chunkList_of_ne (n : Nat) (l : List α) (hl : l ≠ []) (hn : n ≠ 0) :
    chunkList n l = l.take n :: chunkList n (l.drop n) := by
  match l with
  | [] => exact absurd rfl hl
  | x :: xs =>
    show (if n = 0 then [] else _) = _
    simp only [hn, if_false]
    congr 1
    apply chunkGo_fuel_eq n hn
    · simp only [List.length_drop, List.length_cons]
      omega
    · exact le_rfl

theorem chunkList_of_short (n : Nat) (l : List α) (hl : l ≠ []) (hlen : l.length ≤ n) :
    chunkList n l = [l] := by
  have hn : n ≠ 0 := by
    have := List.length_pos.mpr hl
    omega
  rw [chunkList_of_ne n l hl hn]
  rw [List.take_of_length_le hlen, List.drop_eq_nil_of_le hlen, chunkList_nil]

theorem chunkList_append_full (n : Nat) (l₁ l₂ : List α) (hn : n ≠ 0)
    (h : l₁.length = n) :
    chunkList n (l₁ ++ l₂) = l₁ :: chunkList n l₂ := by
  have hl : l₁ ++ l₂ ≠ [] := by
    intro hc
    rcases List.append_eq_nil.mp hc with ⟨h1, _⟩
    rw [h1] at h
    simp at h
    exact hn h.symm
  rw [chunkList_of_ne n (l₁ ++ l₂) hl hn]
  rw [← h, List.take_left, List.drop_left]

theorem chunkList_length (n : Nat) (hn : n ≠ 0) :
    ∀ (h : Nat) (l : List α), l.length = n * h → (chunkList n l).length = h := by
  intro h
  induction h with
  | zero =>
    intro l hl
    simp at hl
    rw [hl, chunkList_nil]
    rfl
  | succ k ih =>
    intro l hl
    have hlen : n ≤ l.length := by
      rw [hl, Nat.mul_succ]
      omega
    have hl' : l ≠ [] := by
      intro hc
      rw [hc] at hlen
      simp at hlen
      omega
    rw [chunkList_of_ne n l hl' hn, List.length_cons]
    rw [ih (l.drop n) (by simp [hl, Nat.mul_succ])]

theorem chunkList_append_of_dvd (n : Nat) (hn : n ≠ 0) :
    ∀ (m : Nat) (l₁ l₂ : List α), l₁.length = n * m →
      chunkList n (l₁ ++ l₂) = chunkList n l₁ ++ chunkList n l₂ := by
  intro m
  induction m with
  | zero =>
    intro l₁ l₂ h
    simp at h
    rw [h]
    simp [chunkList_nil]
  | succ k ih =>
    intro l₁ l₂ h
    have hlen : n ≤ l₁.length := by
      rw [h, Nat.mul_succ]
      omega
    have hl₁ : l₁ ≠ [] := by
      intro hc
      rw [hc] at hlen
      simp at hlen
      omega
    have hsplit : l₁ ++ l₂ = l₁.take n ++ (l₁.drop n ++ l₂) := by
      rw [← List.append_assoc, List.take_append_drop]
    have htk : (l₁.take n).length = n := by
      rw [List.length_take]
      omega
    rw [hsplit, chunkList_append_full n (l₁.take n) (l₁.drop n ++ l₂) hn htk]
    rw [ih (l₁.drop n) l₂ (by simp [h, Nat.mul_succ])]
    rw [chunkList_of_ne n l₁ hl₁ hn]
    rfl

theorem chunkList_mem_length (n : Nat) (hn : n ≠ 0) :
    ∀ (h : Nat) (l : List α), l.length = n * h →
      ∀ r ∈ chunkList n l, r.length = n := by
  intro h
  induction h with
  | zero =>
    intro l hl r hr
    simp at hl
    rw [hl, chunkList_nil] at hr
    exact absurd hr (List.not_mem_nil r)
  | succ k ih =>
    intro l hl r hr
    have hlen : n ≤ l.length := by
      rw [hl, Nat.mul_succ]
      omega
    have hl' : l ≠ [] := by
      intro hc
      rw [hc] at hlen
      simp at hlen
      omega
    rw [chunkList_of_ne n l hl' hn] at hr
    rcases List.mem_cons.mp hr with h1 | h2
    · rw [h1, List.length_take]
      omega
    · exact ih (l.drop n) (by simp [hl, Nat.mul_succ]) r h2

theorem chunkList_mem_dvd_three (n : Nat) (h3n : 3 ∣ n) :
    ∀ (m : Nat) (l : List α), l.length ≤ m → 3 ∣ l.length →
      ∀ r ∈ chunkList n l, 3 ∣ r.length := by
  intro m
  induction m with
  | zero =>
    intro l hle h3l r hr
    have : l = [] := List.length_eq_zero.mp (Nat.le_zero.mp hle)
    rw [this, chunkList_nil] at hr
    exact absurd hr (List.not_mem_nil r)
  | succ k ih =>
    intro l hle h3l r hr
    rcases eq_or_ne l [] with hnil | hne
    · rw [hnil, chunkList_nil] at hr
      exact absurd hr (List.not_mem_nil r)
    · rcases eq_or_ne n 0 with hn0 | hn0
      · rw [hn0, chunkList_zero] at hr
        exact absurd hr (List.not_mem_nil r)
      · rw [chunkList_of_ne n l hne hn0] at hr
        rcases List.mem_cons.mp hr with h1 | h2
        · rw [h1, List.length_take]
          rcases Nat.le_total n l.length with hc | hc
          · rw [Nat.min_eq_left hc]
            exact h3n
          · rw [Nat.min_eq_right hc]
            exact h3l
        · have hnpos : 3 ≤ n := by
            rcases h3n with ⟨c, hc⟩
            omega
          have hlpos : 0 < l.length := List.length_pos.mpr hne
          refine ih (l.drop n) ?_ ?_ r h2
          · rw [List.length_drop]
            omega
          · rw [List.length_drop]
            exact Nat.dvd_sub' h3l h3n

theorem chunkList_chunkList_three (n : Nat) (h3n : 3 ∣ n) :
    ∀ (m : Nat) (l : List α), l.length ≤ m → 3 ∣ l.length →
      chunkList (n / 3) (chunkList 3 l) = (chunkList n l).map (chunkList 3) := by
  intro m
  induction m with
  | zero =>
    intro l hle h3l
    have : l = [] := List.length_eq_zero.mp (Nat.le_zero.mp hle)
    rw [this, chunkList_nil, chunkList_nil, chunkList_nil]
    rfl
  | succ k ih =>
    intro l hle h3l
    rcases eq_or_ne l [] with hnil | hne
    · rw [hnil, chunkList_nil, chunkList_nil, chunkList_nil]
      rfl
    · rcases eq_or_ne n 0 with hn0 | hn0
      · rw [hn0, chunkList_zero, chunkList_zero]
        rfl
      · have hn3 : 3 ≤ n := by
          rcases h3n with ⟨c, hc⟩
          omega
        have hlpos : 0 < l.length := List.length_pos.mpr hne
        have hl3 : 3 ≤ l.length := by
          rcases h3l with ⟨c, hc⟩
          omega
        have hch3len : (chunkList 3 l).length = l.length / 3 :=
          chunkList_length 3 (by decide) (l.length / 3) l
            (Nat.mul_div_cancel' h3l).symm
        have hch3ne : chunkList 3 l ≠ [] := by
          intro hc
          rw [hc] at hch3len
          simp at hch3len
          omega
        rcases Nat.le_total l.length n with hshort | hlong
        · rw [chunkList_of_short n l hne hshort]
          have hlen3 : (chunkList 3 l).length ≤ n / 3 := by
            rw [hch3len]
            exact Nat.div_le_div_right hshort
          rw [chunkList_of_short (n / 3) (chunkList 3 l) hch3ne hlen3]
          rfl
        · have htk : (l.take n).length = n := by
            rw [List.length_take]
            omega
          have hsplit : chunkList 3 l = chunkList 3 (l.take n) ++ chunkList 3 (l.drop n) := by
            conv_lhs => rw [← List.take_append_drop n l]
            exact chunkList_append_of_dvd 3 (by decide) (n / 3) (l.take n) (l.drop n)
              (by rw [htk, Nat.mul_div_cancel' h3n])
          have htk3 : (chunkList 3 (l.take n)).length = n / 3 :=
            chunkList_length 3 (by decide) (n / 3) (l.take n)
              (by rw [htk, Nat.mul_div_cancel' h3n])
          have hn30 : n / 3 ≠ 0 := by
            intro hc
            have := Nat.div_mul_cancel h3n
            omega
          rw [hsplit, chunkList_append_full (n / 3) _ _ hn30 htk3]
          rw [ih (l.drop n) (by rw [List.length_drop]; omega)
            (by rw [List.length_drop]; exact Nat.dvd_sub' h3l h3n)]
          rw [chunkList_of_ne n l hne hn0]
          rfl

theorem flatten_take_chunkList_three :
    ∀ (w : Nat) (l : List α), 3 ∣ l.length →
      ((chunkList 3 l).take w).flatten = l.take (3 * w) := by
  intro w
  induction w with
  | zero =>
    intro l _
    simp
  | succ k ih =>
    intro l h3
    rcases eq_or_ne l [] with hnil | hne
    · rw [hnil, chunkList_nil]
      rfl
    · rw [chunkList_of_ne 3 l hne (by decide), List.take_succ_cons, List.flatten_cons]
      rw [ih (l.drop 3) (by rw [List.length_drop]; exact Nat.dvd_sub' h3 (by decide))]
      rw [show 3 * (k + 1) = 3 + 3 * k by ring, List.take_add l 3 (3 * k)]

theorem tleLe_pts (a b : TimetableEntry) (h : tleLe a b = true) : a.pts ≤ b.pts := by
  unfold tleLe at h
  by_cases h1 : a.pts < b.pts
  · omega
  · by_cases h2 : b.pts < a.pts
    · simp [h1, h2] at h
    · omega

theorem tleLe_not (a b : TimetableEntry) (h : tleLe a b = false) : b.pts ≤ a.pts := by
  unfold tleLe at h
  by_cases h1 : a.pts < b.pts
  · simp [h1] at h
  · omega

theorem mem_insertTT (a x : TimetableEntry) (l : List TimetableEntry) :
    x ∈ insertTT a l ↔ x = a ∨ x ∈ l := by
  induction l with
  | nil => simp [insertTT]
  | cons b l ih =>
    unfold insertTT
    by_cases h : tleLe a b
    · simp [h]
    · simp only [h]
      simp only [Bool.false_eq_true, if_false, List.mem_cons, ih]
      tauto

theorem length_insertTT (a : TimetableEntry) (l : List TimetableEntry) :
    (insertTT a l).length = l.length + 1 := by
  induction l with
  | nil => rfl
  | cons b l ih =>
    unfold insertTT
    by_cases h : tleLe a b
    · simp [h]
    · simp [h, ih]

theorem length_sortTimetable (l : List TimetableEntry) :
    (sortTimetable l).length = l.length := by
  induction l with
  | nil => rfl
  | cons a l ih =>
    unfold sortTimetable
    rw [length_insertTT, ih, List.length_cons]

theorem pairwise_insertTT (a : TimetableEntry) (l : List TimetableEntry)
    (h : List.Pairwise ptsLe l) : List.Pairwise ptsLe (insertTT a l) := by
  induction l with
  | nil => simp [insertTT, List.pairwise_cons]
  | cons b l ih =>
    rcases List.pairwise_cons.mp h with ⟨hb, hl⟩
    unfold insertTT
    by_cases hab : tleLe a b
    · simp only [hab, if_true]
      refine List.pairwise_cons.mpr ⟨?_, h⟩
      intro x hx
      rcases List.mem_cons.mp hx with h1 | h2
      · rw [h1]
        exact tleLe_pts a b hab
      · exact le_trans (tleLe_pts a b hab) (hb x h2)
    · simp only [hab]
      simp only [Bool.false_eq_true, if_false]
      refine List.pairwise_cons.mpr ⟨?_, ih hl⟩
      intro x hx
      rcases (mem_insertTT a x l).mp hx with h1 | h2
      · rw [h1]
        exact tleLe_not a b (Bool.not_eq_true (tleLe a b) ▸ eq_false_of_ne_true hab)
      · exact hb x h2

theorem pairwise_sortTimetable (l : List TimetableEntry) :
    List.Pairwise ptsLe (sortTimetable l) := by
  induction l with
  | nil => exact List.Pairwise.nil
  | cons a l ih =>
    unfold sortTimetable
    exact pairwise_insertTT a (sortTimetable l) ih

theorem flatten_flatten_eq (X : List (List (List α))) :
    X.flatten.flatten = (X.map List.flatten).flatten := by
  induction X with
  | nil => rfl
  | cons a X ih => simp [List.flatten_cons, List.flatten_append, ih]

theorem exportPlane_eq_specExport (f : FrameData) (h3p : 3 ∣ f.plane.length)
    (h3l : 3 ∣ f.linesize) : exportPlane f = specExport f := by
  unfold exportPlane specExport
  rw [chunkList_chunkList_three f.linesize h3l f.plane.length f.plane le_rfl h3p]
  rw [List.map_map]
  rw [flatten_flatten_eq]
  rw [List.map_reverse, List.map_map]
  congr 1
  congr 1
  apply List.map_congr_left
  intro r hr
  have h3r : 3 ∣ r.length :=
    chunkList_mem_dvd_three f.linesize h3l f.plane.length f.plane le_rfl h3p r hr
  exact flatten_take_chunkList_three f.width r h3r

theorem exportPlane_length (m : StreamModel) (f : FrameData) (hwf : wellformedRGB m f) :
    (exportPlane f).length = m.width * m.height * 3 := by
  obtain ⟨hw, hpos, h3l, hwl, hlen⟩ := hwf
  have h3p : 3 ∣ f.plane.length := by
    rw [hlen]
    exact Dvd.dvd.mul_right h3l m.height
  rw [exportPlane_eq_specExport f h3p h3l]
  unfold specExport
  rw [List.length_flatten]
  have hls : f.linesize ≠ 0 := by omega
  have hrows_full : ∀ r ∈ chunkList f.linesize f.plane, r.length = f.linesize :=
    chunkList_mem_length f.linesize hls m.height f.plane hlen
  rw [List.map_reverse, List.sum_reverse, List.map_map]
  have hmap : (chunkList f.linesize f.plane).map
      (List.length ∘ fun r => r.take (3 * f.width)) =
      (chunkList f.linesize f.plane).map (fun _ => 3 * f.width) := by
    apply List.map_congr_left
    intro r hr
    simp only [Function.comp_apply, List.length_take]
    rw [hrows_full r hr]
    omega
  rw [hmap, List.map_const']
  rw [List.sum_replicate, smul_eq_mul]
  rw [chunkList_length f.linesize hls m.height f.plane hlen]
  rw [hw]
  ring

theorem decodeLoop_append_stop (r : Int) (f : FrameData) (rest : List (Int × FrameData))
    (hr : r ≠ 0) (hstop : r = AVERROR_EOF ∨ r = AVERROR EAGAIN) :
    ∀ good : List (Int × FrameData), (∀ p ∈ good, p.1 = 0) →
      decodeLoop (good ++ (r, f) :: rest) = .ok (good.map Prod.snd) := by
  intro good
  induction good with
  | nil =>
    intro _
    show decodeLoop ((r, f) :: rest) = .ok []
    unfold decodeLoop receive_frame
    rw [if_neg hr, if_pos hstop]
  | cons p good ih =>
    intro hg
    obtain ⟨c, f'⟩ := p
    have hc : c = 0 := hg (c, f') (List.mem_cons_self _ _)
    subst hc
    show decodeLoop ((0, f') :: (good ++ (r, f) :: rest)) = _
    unfold decodeLoop receive_frame
    rw [if_pos rfl]
    rw [ih (fun p hp => hg p (List.mem_cons_of_mem _ hp))]
    rfl

theorem decodeLoop_append_err (r : Int) (f : FrameData) (rest : List (Int × FrameData))
    (hr : r ≠ 0) (hne : ¬(r = AVERROR_EOF ∨ r = AVERROR EAGAIN)) :
    ∀ good : List (Int × FrameData), (∀ p ∈ good, p.1 = 0) →
      decodeLoop (good ++ (r, f) :: rest) = .error .decodeError := by
  intro good
  induction good with
  | nil =>
    intro _
    show decodeLoop ((r, f) :: rest) = _
    unfold decodeLoop receive_frame
    rw [if_neg hr, if_neg hne]
  | cons p good ih =>
    intro hg
    obtain ⟨c, f'⟩ := p
    have hc : c = 0 := hg (c, f') (List.mem_cons_self _ _)
    subst hc
    show decodeLoop ((0, f') :: (good ++ (r, f) :: rest)) = _
    unfold decodeLoop receive_frame
    rw [if_pos rfl]
    rw [ih (fun p hp => hg p (List.mem_cons_of_mem _ hp))]

/-- C7: in `_Packet.decode`, a non-success result from
`avcodec_send_packet` yields zero frames for that packet without raising;
while pulling decoded frames, an `AVERROR(EAGAIN)` or `AVERROR_EOF`
result from `avcodec_receive_frame` stops the pulling for that packet
without raising (keeping the frames received so far); and any other
non-success receive result raises `DecodeError`. -/
theorem decode_error_handling (sendRes r : Int) (f : FrameData)
    (good rest recvs : List (Int × FrameData)) (hg : ∀ p ∈ good, p.1 = 0) :
    (sendRes ≠ 0 → decode sendRes recvs = .ok []) ∧
    ((r = AVERROR EAGAIN ∨ r = AVERROR_EOF) →
      decode 0 (good ++ (r, f) :: rest) = .ok (good.map Prod.snd)) ∧
    ((r ≠ 0 ∧ r ≠ AVERROR EAGAIN ∧ r ≠ AVERROR_EOF) →
      decode 0 (good ++ (r, f) :: rest) = .error .decodeError) := by
  refine ⟨?_, ?_, ?_⟩
  · intro hs
    unfold decode
    rw [if_neg hs]
  · intro hstop
    have hr : r ≠ 0 := by
      rcases hstop with h | h <;> rw [h] <;> decide
    unfold decode
    rw [if_pos rfl]
    exact decodeLoop_append_stop r f rest hr (Or.symm hstop) good hg
  · intro ⟨hr0, hre, hrf⟩
    unfold decode
    rw [if_pos rfl]
    exact decodeLoop_append_err r f rest hr0 (by tauto) good hg

/-- Witness for C7: a failed send yields no frames; a successful send
followed by one frame and an EOF yields that frame; a successful send
followed by one frame and an unknown error code raises. -/
theorem decode_error_handling_witness :
    decode 5 [(0, frZero)] = .ok [] ∧
      decode 0 [(0, frZero), (AVERROR_EOF, frZero)] = .ok [frZero] ∧
      decode 0 [(0, frZero), (-22, frZero)] = .error .decodeError :=
  ⟨(decode_error_handling 5 0 frZero [] [] [(0, frZero)] (by simp)).1 (by decide),
   (decode_error_handling 0 AVERROR_EOF frZero [(0, frZero)] [] []
      (by intro p hp; simp at hp; rw [hp])).2.1 (Or.inr rfl),
   (decode_error_handling 0 (-22) frZero [(0, frZero)] [] []
      (by intro p hp; simp at hp; rw [hp])).2.2 (by refine ⟨?_, ?_, ?_⟩ <;> decide)⟩

/-- Counterexample for C6 as stated: with hardware format `100` and
software format `50`, the claim demands that the hardware format be
selected whenever it is offered, and the software format exactly when it
is not.  Both parts fail: on the candidate list `[50, 100]` the callback
returns `50` although `100` is offered, and on the empty candidate list
(sentinel immediately) it returns the sentinel `-1`, not `50`. -/
theorem get_hw_format_claim_cex :
    ¬ ∀ fmts : List Int,
        ((100 : Int) ∈ fmts → get_hw_format 100 50 fmts = 100) ∧
        ((100 : Int) ∉ fmts → get_hw_format 100 50 fmts = 50) := by
  intro h
  have h1 := (h [50, 100]).1 (by decide)
  have : get_hw_format 100 50 [50, 100] = 50 := by decide
  rw [this] at h1
  exact absurd h1 (by decide)

/-- C6 (amended): the callback scans the sentinel-terminated candidate
list in order and returns the first candidate equal to the
hardware-surface format of the active device or to the decoder's default
software format, whichever occurs first; if the sentinel is reached with
no such candidate it returns the sentinel (`AV_PIX_FMT_NONE`), not the
software format. -/
theorem get_hw_format_first_match (hwFmt swFmt : Int) :
    (∀ (pre rest : List Int) (f : Int),
        (∀ x ∈ pre, x ≠ AV_PIX_FMT_NONE ∧ x ≠ hwFmt ∧ x ≠ swFmt) →
        (f = hwFmt ∨ f = swFmt) →
        get_hw_format hwFmt swFmt (pre ++ f :: rest) = f) ∧
    (∀ fmts : List Int,
        (∀ x ∈ fmts, x ≠ AV_PIX_FMT_NONE ∧ x ≠ hwFmt ∧ x ≠ swFmt) →
        get_hw_format hwFmt swFmt fmts = AV_PIX_FMT_NONE) := by
  constructor
  · intro pre
    induction pre with
    | nil =>
      intro rest f _ hf
      show get_hw_format hwFmt swFmt (f :: rest) = f
      unfold get_hw_format
      by_cases h1 : f = AV_PIX_FMT_NONE ∨ f = hwFmt
      · rw [if_pos h1]
      · rcases hf with hf | hf
        · exact absurd (Or.inr hf) h1
        · rw [if_neg h1, if_pos hf]
    | cons x pre ih =>
      intro rest f hpre hf
      obtain ⟨hx1, hx2, hx3⟩ := hpre x (List.mem_cons_self _ _)
      show get_hw_format hwFmt swFmt (x :: (pre ++ f :: rest)) = f
      unfold get_hw_format
      rw [if_neg (by tauto), if_neg hx3]
      exact ih rest f (fun y hy => hpre y (List.mem_cons_of_mem _ hy)) hf
  · intro fmts
    induction fmts with
    | nil =>
      intro _
      rfl
    | cons x fmts ih =>
      intro hall
      obtain ⟨hx1, hx2, hx3⟩ := hall x (List.mem_cons_self _ _)
      show get_hw_format hwFmt swFmt (x :: fmts) = AV_PIX_FMT_NONE
      unfold get_hw_format
      rw [if_neg (by tauto), if_neg hx3]
      exact ih (fun y hy => hall y (List.mem_cons_of_mem _ hy))

/-- Witness for C6 (amended): with an unrelated leading candidate the
first offered match (here the hardware format) is selected, and a list
with no match at all yields the sentinel. -/
theorem get_hw_format_first_match_witness :
    get_hw_format 100 50 [7, 100, 50] = 100 ∧
      get_hw_format 100 50 [7, 8] = AV_PIX_FMT_NONE :=
  ⟨(get_hw_format_first_match 100 50).1 [7] [50] 100 (by decide) (Or.inl rfl),
   (get_hw_format_first_match 100 50).2 [7, 8] (by decide)⟩

/-- C10: `timestamp` and `total_frames` are pure observers — for every
session state and every index (in-range or not) the state component of
the operation is returned unchanged — in contrast to `frame_buffer`,
whose seek-and-decode pass does move the session state for some session
and input. -/
theorem observers_pure (m : StreamModel) (s : SessionState) (i : Int) :
    (timestampOp m s i).2 = s ∧ (totalFramesOp m s).2 = s ∧
      ∃ (m' : StreamModel) (s' : SessionState) (i' : Int),
        (frameBufferOp m' s' i').2 ≠ s' :=
  ⟨rfl, rfl, Mmiss, ⟨5, false⟩, 0, by decide⟩

/-- Helper: for an in-range 32-bit index, `timestamp` returns the
truncated `pts` of the indexed timetable entry. -/
theorem timestamp_ok (m : StreamModel) (i : Int) (h0 : 0 ≤ i) (h32 : i < 2 ^ 31)
    (hin : i < (m.nbFrames : Int)) (h : i.toNat < m.timetable.length) :
    timestamp m i = .ok (wrap32 (m.timetable.get ⟨i.toNat, h⟩).pts) := by
  unfold timestamp
  rw [if_neg (by omega), dif_neg (by omega)]

/-- C2 (amended): the Timetable built by open is sorted ascending by
`pts`, so the underlying `pts` sequence is monotone in the index; and
since `timestamp` returns the `pts` truncated by a C `<int>` cast, the
returned timestamps are monotone whenever every recorded `pts` fits in
the signed 32-bit range. -/
theorem timetable_sorted_timestamp_monotone (entries : List TimetableEntry)
    (m : StreamModel) (hm : m.timetable = sortTimetable entries) (i j : Int)
    (h0 : 0 ≤ i) (hij : i ≤ j) (hj : j < (m.nbFrames : Int)) (hj32 : j < 2 ^ 31)
    (hfit : ∀ e ∈ m.timetable, -(2 ^ 31) ≤ e.pts ∧ e.pts < 2 ^ 31) :
    List.Pairwise ptsLe m.timetable ∧
      ∃ a b : Int, timestamp m i = .ok a ∧ timestamp m j = .ok b ∧ a ≤ b := by
  have hpw : List.Pairwise ptsLe m.timetable := by
    rw [hm]
    exact pairwise_sortTimetable entries
  refine ⟨hpw, ?_⟩
  have hi : i.toNat < m.timetable.length := by
    rw [m.timetable_len]
    omega
  have hj' : j.toNat < m.timetable.length := by
    rw [m.timetable_len]
    omega
  refine ⟨_, _, timestamp_ok m i h0 (by omega) (by omega) hi,
    timestamp_ok m j (by omega) hj32 hj hj', ?_⟩
  have hpts : (m.timetable.get ⟨i.toNat, hi⟩).pts ≤ (m.timetable.get ⟨j.toNat, hj'⟩).pts := by
    rcases Nat.lt_or_ge i.toNat j.toNat with hlt | hge
    · exact List.pairwise_iff_get.mp hpw ⟨i.toNat, hi⟩ ⟨j.toNat, hj'⟩ hlt
    · have heq : i.toNat = j.toNat := by omega
      have : (⟨i.toNat, hi⟩ : Fin m.timetable.length) = ⟨j.toNat, hj'⟩ := Fin.ext heq
      rw [this]
  have hfi := hfit (m.timetable.get ⟨i.toNat, hi⟩) (m.timetable.get_mem _ _)
  have hfj := hfit (m.timetable.get ⟨j.toNat, hj'⟩) (m.timetable.get_mem _ _)
  unfold wrap32
  omega

/-- Witness for C2 (amended): a session opened from two out-of-order
keyframe packets: the sorted timetable is pairwise ordered and the two
timestamps come back in order. -/
theorem timetable_sorted_timestamp_monotone_witness :
    Mmiss.timetable = sortTimetable [⟨5, 5, 1⟩, ⟨0, 0, 1⟩] ∧
      List.Pairwise ptsLe Mmiss.timetable ∧
      ∃ a b : Int, timestamp Mmiss 0 = .ok a ∧ timestamp Mmiss 1 = .ok b ∧ a ≤ b := by
  have h := timetable_sorted_timestamp_monotone [⟨5, 5, 1⟩, ⟨0, 0, 1⟩] Mmiss (by decide)
    0 1 (by decide) (by decide) (by decide) (by decide) (by decide)
  exact ⟨by decide, h.1, h.2⟩

/-- Counterexample for C2 as stated: a successfully opened session whose
second frame has `pts = 2 ^ 31`.  The Timetable is sorted (pts 0 before
pts `2 ^ 31`), yet `timestamp(1) = -2 ^ 31 < 0 = timestamp(0)` because of
the truncating `<int>` cast in `Stream.timestamp`, so the returned
timestamps are not monotone. -/
theorem timestamp_monotone_cex :
    openTimetable 2 pktsM2 0 [] = some M2.timetable ∧
      (0 : Int) ≤ 1 ∧ (1 : Int) < (M2.nbFrames : Int) ∧
      timestamp M2 0 = .ok 0 ∧ timestamp M2 1 = .ok (-(2 ^ 31)) ∧
      ¬((0 : Int) ≤ -(2 ^ 31)) :=
  ⟨by decide, by decide, by decide, by decide, by decide, by decide⟩

/-- C8 (amended): for a successfully opened session, `total_frames()`
returns the container-declared `nb_frames`, which equals the length of
the allocated Timetable; it equals the number of entries recorded by the
single forward pass exactly when that pass yielded `nb_frames` packets of
the selected substream (more packets make open fail; fewer leave padding
entries in the table). -/
theorem total_frames_eq_timetable_length (nbFrames : Nat) (pkts : List PacketData)
    (best : Int) (garbage tt : List TimetableEntry) (m : StreamModel)
    (hopen : openTimetable nbFrames pkts best garbage = some tt)
    (hm : m.timetable = tt) (hnb : m.nbFrames = nbFrames) (h32 : nbFrames < 2 ^ 31) :
    total_frames m = (m.timetable.length : Int) ∧
      ((recordedEntries pkts best).length = nbFrames →
        total_frames m = ((recordedEntries pkts best).length : Int)) := by
  rw [hm]
  unfold openTimetable at hopen
  by_cases hc : (recordedEntries pkts best).length ≤ nbFrames ∧
      garbage.length = nbFrames - (recordedEntries pkts best).length
  · rw [if_pos hc] at hopen
    have htt : tt = sortTimetable (recordedEntries pkts best ++ garbage) :=
      (Option.some.inj hopen).symm
    have hlen : tt.length = nbFrames := by
      rw [htt, length_sortTimetable, List.length_append]
      omega
    have ht : total_frames m = (nbFrames : Int) := by
      unfold total_frames wrap32
      rw [hnb]
      omega
    constructor
    · rw [hlen, ht]
    · intro hr
      rw [ht, hr]
  · rw [if_neg hc] at hopen
    exact absurd hopen (by simp)

/-- Witness for C8 (amended): the session `M2`, opened from exactly
`nb_frames = 2` substream packets. -/
theorem total_frames_eq_timetable_length_witness :
    total_frames M2 = (M2.timetable.length : Int) ∧
      ((recordedEntries pktsM2 0).length = 2 →
        total_frames M2 = ((recordedEntries pktsM2 0).length : Int)) :=
  total_frames_eq_timetable_length 2 pktsM2 0 [] M2.timetable M2 (by decide) rfl rfl
    (by decide)

/-- Counterexample for C8 as stated: the session `M3` opens successfully
with container metadata `nb_frames = 2` although its single substream
packet makes the forward pass record only one entry; `total_frames()`
returns 2, not the recorded count 1. -/
theorem total_frames_cex :
    openTimetable 2 pktsM3 0 [⟨9, 9, 0⟩] = some M3.timetable ∧
      total_frames M3 = 2 ∧ (recordedEntries pktsM3 0).length = 1 ∧ (2 : Int) ≠ 1 :=
  ⟨by decide, by decide, by decide, by decide⟩

/-- Helper: the seek-and-decode body never produces the
index-out-of-range error, whichever branch it takes. -/
theorem frameBufferCore_ne_ior (m : StreamModel) (s : SessionState) (t : Int) :
    (frameBufferCore m s t).1 ≠ .error .indexOutOfRange := by
  unfold frameBufferCore
  repeat' split
  all_goals simp

/-- Helper: a valid in-range index never produces the index-out-of-range
error from `frame_buffer` (any failure of the later steps surfaces as a
different error). -/
theorem frameBufferOp_ne_ior (m : StreamModel) (s : SessionState) (i : Int)
    (h32 : -(2 ^ 31) ≤ i ∧ i < 2 ^ 31) (hin : ¬(i < 0 ∨ (m.nbFrames : Int) ≤ i)) :
    (frameBufferOp m s i).1 ≠ .error .indexOutOfRange := by
  obtain ⟨h32l, h32r⟩ := h32
  unfold frameBufferOp
  rw [if_neg (by omega), dif_neg hin]
  exact frameBufferCore_ne_ior m s _

/-- C3 (amended): for indices representable as a C `int` (the source
converts the Python index with `cdef int frame_index = index` first),
`timestamp(i)` and `frame_buffer(i)` fail with the index-out-of-range
error exactly when `i < 0` or `i ≥ total_frames()` — an invalid index is
never silently clamped; an index outside the 32-bit range fails with
Python's `OverflowError` from that conversion instead. -/
theorem index_out_of_range_iff (m : StreamModel) (s : SessionState) (i : Int)
    (h32l : -(2 ^ 31) ≤ i) (h32r : i < 2 ^ 31) :
    (timestamp m i = .error .indexOutOfRange ↔ (i < 0 ∨ (m.nbFrames : Int) ≤ i)) ∧
    ((frameBufferOp m s i).1 = .error .indexOutOfRange ↔
      (i < 0 ∨ (m.nbFrames : Int) ≤ i)) := by
  constructor
  · unfold timestamp
    rw [if_neg (by omega)]
    constructor
    · intro h
      by_contra hc
      rw [dif_neg hc] at h
      simp at h
    · intro h
      rw [dif_pos h]
  · constructor
    · intro h
      by_contra hc
      exact absurd h (frameBufferOp_ne_ior m s i ⟨h32l, h32r⟩ hc)
    · intro h
      unfold frameBufferOp
      rw [if_neg (by omega), dif_pos h]

/-- Witness for C3 (amended): on the one-frame session, index 5 is out of
range and the iff certifies the failure; the bounds hold at 5. -/
theorem index_out_of_range_iff_witness :
    (-(2 ^ 31) : Int) ≤ 5 ∧ (5 : Int) < 2 ^ 31 ∧
      (timestamp M1 5 = .error .indexOutOfRange ↔
        ((5 : Int) < 0 ∨ (M1.nbFrames : Int) ≤ 5)) ∧
      ((frameBufferOp M1 ⟨0, true⟩ 5).1 = .error .indexOutOfRange ↔
        ((5 : Int) < 0 ∨ (M1.nbFrames : Int) ≤ 5)) :=
  ⟨by decide, by decide,
    (index_out_of_range_iff M1 ⟨0, true⟩ 5 (by decide) (by decide)).1,
    (index_out_of_range_iff M1 ⟨0, true⟩ 5 (by decide) (by decide)).2⟩

/-- Counterexample for C3 as stated: the index `2 ^ 31` is `≥
total_frames()` on the one-frame session, so the claim demands an
`IndexOutOfRange` failure, but both calls fail with Python's
`OverflowError` raised by the `cdef int frame_index = index` conversion
before the bounds check runs. -/
theorem index_out_of_range_cex :
    timestamp M1 (2 ^ 31) = .error .pyOverflow ∧
      (frameBufferOp M1 ⟨0, true⟩ (2 ^ 31)).1 = .error .pyOverflow ∧
      (M1.nbFrames : Int) ≤ 2 ^ 31 ∧ VErr.pyOverflow ≠ VErr.indexOutOfRange :=
  ⟨by decide, by decide, by decide, by decide⟩

/-- Helper: under the collaborator contracts (seek succeeds, hardware
transfer succeeds when hardware decode is active, conversion yields a
wellformed rgb24 frame), the seek-and-decode body returns a buffer of
exactly `width * height * 3` bytes on both the found-frame path and the
black-frame path. -/
theorem frameBufferCore_length (m : StreamModel) (s : SessionState) (t : Int)
    (hseek : m.seekOk t = true)
    (hhw : ∀ g, m.enabledHardware = true → (m.hwTransfer g).isSome = true)
    (hconv : ∀ g, wellformedRGB m (m.rgb24 g)) :
    ∃ buf, (frameBufferCore m s t).1 = .ok buf ∧
      buf.length = m.width * m.height * 3 := by
  unfold frameBufferCore
  rw [if_pos hseek]
  cases hf : (m.framesFrom t).find? (fun f => f.pts == t) with
  | none =>
    dsimp only
    exact ⟨_, rfl, by simp [blackFrameBuffer]⟩
  | some f =>
    dsimp only
    cases hhwb : m.enabledHardware with
    | false =>
      rw [if_neg (fun hc => Bool.noConfusion hc)]
      exact ⟨_, rfl, exportPlane_length m _ (hconv f)⟩
    | true =>
      rw [if_pos rfl]
      have hsome := hhw f hhwb
      cases hft : m.hwTransfer f with
      | none =>
        rw [hft] at hsome
        simp at hsome
      | some fsw =>
        dsimp only
        exact ⟨_, rfl, exportPlane_length m _ (hconv fsw)⟩

/-- C1: for every opened session and every valid in-range index, under
the collaborator contracts (seek succeeds, hardware transfer succeeds
when active, rgb24 conversion wellformed), `frame_buffer` returns a byte
sequence of length exactly `width * height * 3` — both when a decoded
frame with the matching presentation timestamp is found and when the
black-frame fallback path is taken. -/
theorem frame_buffer_length (m : StreamModel) (s : SessionState) (i : Int)
    (h32l : -(2 ^ 31) ≤ i) (h32r : i < 2 ^ 31)
    (hin : ¬(i < 0 ∨ (m.nbFrames : Int) ≤ i))
    (hseek : ∀ t, m.seekOk t = true)
    (hhw : ∀ g, m.enabledHardware = true → (m.hwTransfer g).isSome = true)
    (hconv : ∀ g, wellformedRGB m (m.rgb24 g)) :
    ∃ buf, (frameBufferOp m s i).1 = .ok buf ∧
      buf.length = m.width * m.height * 3 := by
  unfold frameBufferOp
  rw [if_neg (by omega), dif_neg hin]
  exact frameBufferCore_length m s _ (hseek _) hhw hconv

/-- Witness for C1: the found-frame path of the session `Mfound`
(1 × 2 rgb24 output, 6 bytes). -/
theorem frame_buffer_length_witness :
    ∃ buf, (frameBufferOp Mfound ⟨0, true⟩ 0).1 = .ok buf ∧
      buf.length = Mfound.width * Mfound.height * 3 :=
  frame_buffer_length Mfound ⟨0, true⟩ 0 (by decide) (by decide) (by decide)
    (fun _ => rfl) (fun g h => absurd h (by decide))
    (fun g => show wellformedRGB Mfound ⟨0, 1, 2, 3, [10, 20, 30, 40, 50, 60]⟩ from
      ⟨rfl, by decide, by decide, by decide, rfl⟩)

/-- C4: the two missing-data cases never raise.  For a valid index whose
exact presentation timestamp is never produced before the decode pass is
exhausted, `frame_buffer` returns the all-zero black-frame buffer instead
of an error; and `nearby_keyframe_buffer` with an offset outside the
available keyframe range in either direction returns the same black-frame
buffer instead of an error. -/
theorem missing_data_fallback (m : StreamModel) (s : SessionState) (i j nb : Int) :
    ((-(2 ^ 31) ≤ i ∧ i < 2 ^ 31) → ¬(i < 0 ∨ (m.nbFrames : Int) ≤ i) →
      (∀ t, m.seekOk t = true) →
      (∀ t, (m.framesFrom t).find? (fun f => f.pts == t) = none) →
      (frameBufferOp m s i).1 = .ok (blackFrameBuffer m)) ∧
    (((nb < 0 ∧ ((backwardKeyframes m j).length : Int) < -nb) ∨
        (0 < nb ∧ ((forwardKeyframes m j).length : Int) < nb)) →
      nearby_keyframe_buffer m j nb = .ok (blackFrameBuffer m)) := by
  constructor
  · intro h32 hin hseek hmiss
    unfold frameBufferOp
    rw [if_neg (by omega), dif_neg hin]
    show (frameBufferCore m s _).1 = _
    unfold frameBufferCore
    rw [if_pos (hseek _), hmiss _]
  · intro hout
    have hc1 : ¬(nb < 0 ∧ nb.natAbs ≤ (backwardKeyframes m j).length) := by
      rcases hout with ⟨h1, h2⟩ | ⟨h1, h2⟩ <;> intro hc <;> omega
    have hc2 : ¬(0 < nb ∧ nb ≤ ((forwardKeyframes m j).length : Int)) := by
      rcases hout with ⟨h1, h2⟩ | ⟨h1, h2⟩ <;> intro hc <;> omega
    have hc3 : ¬(nb = 0) := by
      rcases hout with ⟨h1, h2⟩ | ⟨h1, h2⟩ <;> omega
    unfold nearby_keyframe_buffer
    rw [if_neg hc1, if_neg hc2, if_neg hc3]

/-- Witness for C4: on the session `Mmiss` (its decode pass yields no
frames) the valid index 0 produces the black frame, and a backward offset
beyond the single available keyframe also produces the black frame. -/
theorem missing_data_fallback_witness :
    (frameBufferOp Mmiss ⟨0, true⟩ 0).1 = .ok (blackFrameBuffer Mmiss) ∧
      nearby_keyframe_buffer Mmiss 0 (-3) = .ok (blackFrameBuffer Mmiss) :=
  ⟨(missing_data_fallback Mmiss ⟨0, true⟩ 0 0 (-3)).1 (by decide) (by decide)
      (fun _ => rfl) (fun _ => rfl),
    (missing_data_fallback Mmiss ⟨0, true⟩ 0 0 (-3)).2 (Or.inl (by decide))⟩

/-- C5: `nearby_keyframe_buffer(index, offset)` returns `frame_buffer` of
the keyframe `offset` keyframes away in the keyframe sequence.  Offset 0
is exactly `frame_buffer(index)`; the backward set collects the keyframes
at-or-before the index (`<=`) and the forward set those strictly after
(`>`) — the asymmetric split; a negative offset `-n` (with `n` within the
backward set) picks the `n`-th keyframe counting backward, a positive
offset `n` (within the forward set) the `n`-th keyframe strictly after
the index. -/
theorem nearby_keyframe_spec (m : StreamModel) (k : Int) :
    (nearby_keyframe_buffer m k 0 = frame_buffer m k) ∧
    (∀ i : Nat, i ∈ backwardKeyframes m k ↔ i ∈ keyframeIndices m ∧ (i : Int) ≤ k) ∧
    (∀ i : Nat, i ∈ forwardKeyframes m k ↔ i ∈ keyframeIndices m ∧ k < (i : Int)) ∧
    (∀ n : Nat, 0 < n → n ≤ (backwardKeyframes m k).length →
      nearby_keyframe_buffer m k (-(n : Int)) =
        frame_buffer m (((backwardKeyframes m k).reverse.getD (n - 1) 0 : Nat) : Int)) ∧
    (∀ n : Nat, 0 < n → n ≤ (forwardKeyframes m k).length →
      nearby_keyframe_buffer m k (n : Int) =
        frame_buffer m (((forwardKeyframes m k).getD (n - 1) 0 : Nat) : Int)) := by
  refine ⟨?_, ?_, ?_, ?_, ?_⟩
  · unfold nearby_keyframe_buffer
    rw [if_neg (fun hc => lt_irrefl 0 hc.1), if_neg (fun hc => lt_irrefl 0 hc.1),
      if_pos rfl]
  · intro i
    unfold backwardKeyframes
    rw [List.mem_filter]
    simp
  · intro i
    unfold forwardKeyframes
    rw [List.mem_filter]
    simp
  · intro n hn hle
    unfold nearby_keyframe_buffer
    rw [if_pos ⟨by omega, by omega⟩]
    have habs : (-(n : Int)).natAbs = n := by omega
    have hEq : (backwardKeyframes m k).getD
        ((backwardKeyframes m k).length - (-(n : Int)).natAbs) 0 =
        (backwardKeyframes m k).reverse.getD (n - 1) 0 := by
      rw [habs]
      have h1 : n - 1 < (backwardKeyframes m k).reverse.length := by
        rw [List.length_reverse]
        omega
      have h2 : (backwardKeyframes m k).length - n < (backwardKeyframes m k).length := by
        omega
      rw [List.getD_eq_getElem _ 0 h1, List.getD_eq_getElem _ 0 h2]
      rw [List.getElem_reverse]
      congr 1
      omega
    rw [hEq]
  · intro n hn hle
    unfold nearby_keyframe_buffer
    rw [if_neg (fun hc => by omega), if_pos ⟨by omega, by omega⟩]
    have htn : ((n : Int)).toNat = n := by omega
    rw [htn]

/-- Witness for C5: on the session `Mmiss` (keyframes at indices 0 and 1,
query index 0: backward set `[0]`, forward set `[1]`), offset 0, offset
-1 and offset 1 each agree with the corresponding `frame_buffer` call. -/
theorem nearby_keyframe_spec_witness :
    nearby_keyframe_buffer Mmiss 0 0 = frame_buffer Mmiss 0 ∧
      nearby_keyframe_buffer Mmiss 0 (-(1 : Int)) =
        frame_buffer Mmiss (((backwardKeyframes Mmiss 0).reverse.getD 0 0 : Nat) : Int) ∧
      nearby_keyframe_buffer Mmiss 0 (1 : Int) =
        frame_buffer Mmiss (((forwardKeyframes Mmiss 0).getD 0 0 : Nat) : Int) :=
  ⟨(nearby_keyframe_spec Mmiss 0).1,
    (nearby_keyframe_spec Mmiss 0).2.2.2.1 1 (by decide) (by decide),
    (nearby_keyframe_spec Mmiss 0).2.2.2.2 1 (by decide) (by decide)⟩

/-- C9: on the found-frame path the numpy export pipeline (pixel grouping,
row reshape by `linesize // 3`, column trim to `width`, `flipud`,
flatten) produces exactly the spec's description: the plane's byte rows
in reversed (top-to-bottom) order, each trimmed of the row-alignment
padding beyond `width` pixels — rows top-to-bottom, pixels left-to-right,
3 bytes per pixel, no stride padding. -/
theorem export_flip_trim (f : FrameData) (h3p : 3 ∣ f.plane.length)
    (h3l : 3 ∣ f.linesize) : exportPlane f = specExport f :=
  exportPlane_eq_specExport f h3p h3l

/-- Witness for C9: the concrete 1 × 2 frame `fEx` with stride 6 (one
padding pixel per row). -/
theorem export_flip_trim_witness :
    (3 : Nat) ∣ fEx.plane.length ∧ (3 : Nat) ∣ fEx.linesize ∧
      exportPlane fEx = specExport fEx :=
  ⟨by decide, by decide, export_flip_trim fEx (by decide) (by decide)⟩
